import Mathlib

/-!
# URL prober (`main.go`): outcome tracker, probe classification, dispatchers

A shallow embedding of `src/main.go`.

* Go `int` and `time.Duration` are 64-bit two's-complement integers: they are
  modelled as `Int` with every arithmetic result passed through `wrapInt`.
* Go `error` values are modelled by `GoError`; the sentinel `context.Canceled`
  is the constructor `GoError.canceled`, and Go's `err == context.Canceled`
  is equality with that constructor.
* `map[int]int` is a function `Int → Option Int` (`none`: key absent).
* The HTTP transport, the clock and the logger are outside the program: what
  they return is an input of the model, what is logged is left out.
* `parallelExec` runs goroutines: it is modelled as a transition system whose
  scheduler (the order of the goroutines' steps) is an input.
-/

namespace Main

/-! ## Machine integers -/

/-- Two's-complement wrap of an integer into the range of Go's 64-bit `int`. -/
def wrapInt (x : Int) : Int :=
  (x + 9223372036854775808) % 18446744073709551616 - 9223372036854775808

/-- Go `a + b` on `int`. -/
def goAdd (a b : Int) : Int := wrapInt (a + b)

/-- Go `a * b` on `int64` (`time.Duration`). -/
def goMul (a b : Int) : Int := wrapInt (a * b)

/-- Go `x++` on `int`. -/
def goInc (x : Int) : Int := wrapInt (x + 1)

/-- The largest length a Go slice can have (`len` is an `int`), plus one. -/
def maxLen : Nat := 9223372036854775808

/-! ## Errors -/

/-- Go `error` values as the program meets them. -/
inductive GoError where
  /-- The sentinel `context.Canceled`. -/
  | canceled : GoError
  /-- The sentinel `context.DeadlineExceeded`. -/
  | deadlineExceeded : GoError
  /-- An error without `Unwrap` (`errors.New`, `fmt.Errorf` without `%w`). -/
  | errorString (msg : String) : GoError
  /-- The value of `fmt.Errorf(prefix + ": %w", err)`. -/
  | wrapError (msg : String) (err : GoError) : GoError
  /-- A `*url.Error{Op, URL, Err}`, the error type of `http.Client.Do`. -/
  | urlError (op : String) (url : String) (err : GoError) : GoError
  deriving DecidableEq, Repr

/-- Go `errors.Unwrap`: one step down the chain, `none` for Go's `nil`. -/
def errorsUnwrap : GoError → Option GoError
  | GoError.wrapError _ e => some e
  | GoError.urlError _ _ e => some e
  | _ => none

/-! ## Data model -/

/-- Go `stat` (main.go:25-28): `ResponseCode *int` is `none` for `nil`. -/
structure stat where
  ResponseCode : Option Int
  Duration : Int
  deriving DecidableEq, Repr

/-- Go `taskStatus` (main.go:19-23): `err` is `none` for `nil`. -/
structure taskStatus where
  url : String
  stat : stat
  err : Option GoError
  deriving DecidableEq, Repr

/-- Go `statusTracker` (main.go:30-36). -/
structure statusTracker where
  total : Int
  ok : Int
  errors : Int
  cancelled : Int
  codes : Int → Option Int

/-- Go `newStatusTracker` (main.go:38-42): zero counters and an empty map. -/
def newStatusTracker : statusTracker :=
  { total := 0, ok := 0, errors := 0, cancelled := 0, codes := fun _ => none }

/-- Go `m[k]` on `map[int]int`: the zero value for an absent key. -/
def mapGet (m : Int → Option Int) (k : Int) : Int := (m k).getD 0

/-- Go `m[k]++` on `map[int]int`. -/
def mapInc (m : Int → Option Int) (k : Int) : Int → Option Int :=
  fun j => if j = k then some (goInc (mapGet m k)) else m j

/-- Go `statusTracker.track` (main.go:54-74; the log lines are left out). -/
def track (t : statusTracker) (status : taskStatus) : statusTracker :=
  let t1 : statusTracker := { t with total := goInc t.total }
  let t2 : statusTracker :=
    match status.stat.ResponseCode with
    | some c => { t1 with codes := mapInc t1.codes c }
    | none => t1
  match status.err with
  | some e =>
    if e = GoError.canceled then
      { t2 with cancelled := goInc t2.cancelled }
    else
      { t2 with errors := goInc t2.errors }
  | none => { t2 with ok := goInc t2.ok }

/-- A sequence of `track` calls, in order. -/
def trackAll (t : statusTracker) (outcomes : List taskStatus) : statusTracker :=
  outcomes.foldl track t

/-! ## Reference counts (from the specification's wording) -/

/-- Outcome with no error. -/
def isOk (s : taskStatus) : Bool := s.err.isNone

/-- Outcome whose error is the cancelled error. -/
def isCancelled (s : taskStatus) : Bool := decide (s.err = some GoError.canceled)

/-- Outcome with an error other than the cancelled error. -/
def isError (s : taskStatus) : Bool :=
  s.err.isSome && !decide (s.err = some GoError.canceled)

/-- Outcome whose response code is present and equal to `c`. -/
def hasCode (c : Int) (s : taskStatus) : Bool := decide (s.stat.ResponseCode = some c)

/-- The counters add up, with Go's `+` and `==` on `int`. -/
def GoBalanced (t : statusTracker) : Prop :=
  t.total = goAdd (goAdd t.ok t.errors) t.cancelled

/-- The tracker holds the reference counts of the outcomes `l`: every counter
is the number of outcomes of its kind, and the map has exactly the codes that
occur, each with its number of occurrences. -/
def HoldsCounts (t : statusTracker) (l : List taskStatus) : Prop :=
  t.total = (l.length : Int) ∧
  t.ok = (l.countP isOk : Int) ∧
  t.cancelled = (l.countP isCancelled : Int) ∧
  t.errors = (l.countP isError : Int) ∧
  ∀ c : Int, t.codes c =
    if l.countP (hasCode c) = 0 then none else some (l.countP (hasCode c) : Int)

/-! ## The probe: `head` and `headWithStatus` -/

/-- What the outside world answers during one call of `head`. -/
structure HeadEnv where
  /-- The error of `http.NewRequestWithContext`, `none` for `nil`. -/
  newRequestErr : Option GoError
  /-- The result of `http.DefaultClient.Do`: `resp.StatusCode` or the error. -/
  doResult : Except GoError Int
  /-- The value of `time.Since(started)` when the `stat` is built. -/
  elapsed : Int
  deriving Repr

/-- Go `newStatWithResponseCode` (main.go:76-81). -/
def newStatWithResponseCode (code : Int) (elapsed : Int) : stat :=
  { ResponseCode := some code, Duration := elapsed }

/-- Go `newStat` (main.go:83-88). -/
def newStat (elapsed : Int) : stat :=
  { ResponseCode := none, Duration := elapsed }

/-- Go `head` (main.go:90-115): the pair `(stat, error)` it returns. -/
def head (env : HeadEnv) (_url : String) : stat × Option GoError :=
  match env.newRequestErr with
  | some err =>
    (newStat env.elapsed, some (GoError.wrapError "cannot create HEAD request" err))
  | none =>
    match env.doResult with
    | Except.error err =>
      if errorsUnwrap err = some GoError.canceled then
        (newStat env.elapsed, some GoError.canceled)
      else
        (newStat env.elapsed, some (GoError.wrapError "cannot HEAD" err))
    | Except.ok statusCode =>
      if statusCode = 200 then
        (newStatWithResponseCode statusCode env.elapsed, none)
      else
        (newStatWithResponseCode statusCode env.elapsed,
          some (GoError.errorString
            ("non 200 status code returned: " ++ toString statusCode)))

/-- Go `headWithStatus` (main.go:117-124). -/
def headWithStatus (env : HeadEnv) (url : String) : taskStatus :=
  let r := head env url
  { url := url, stat := r.1, err := r.2 }

/-- The error `http.Client.Do` returns for a HEAD request that failed with
`cause`: by its contract always a `*url.Error` around the cause. -/
def clientDoError (url : String) (cause : GoError) : GoError :=
  GoError.urlError "Head" url cause

/-! ## Sequential dispatcher: `serialExec` -/

/-- What `serialExec` did, in order. -/
inductive SerialEvent where
  | probed (url : String) : SerialEvent
  | tracked (status : taskStatus) : SerialEvent
  deriving DecidableEq, Repr

/-- State of the loop of `serialExec`: the outside world, the tracker and the
events so far. -/
structure SerialState (W : Type) where
  world : W
  tracker : statusTracker
  events : List SerialEvent

/-- One iteration of the loop of `serialExec` (main.go:129-132); `probe` is
`headWithStatus` as a function of the outside world before the call. -/
def serialBody {W : Type} (probe : W → String → taskStatus × W)
    (s : SerialState W) (url : String) : SerialState W :=
  let r := probe s.world url
  { world := r.2
    tracker := track s.tracker r.1
    events := s.events ++ [SerialEvent.probed url, SerialEvent.tracked r.1] }

/-- Go `serialExec` (main.go:126-135): the state when the loop is over and the
summary printed. -/
def serialExec {W : Type} (probe : W → String → taskStatus × W) (w : W)
    (urls : List String) : SerialState W :=
  urls.foldl (serialBody probe) { world := w, tracker := newStatusTracker, events := [] }

/-- The probe `serialExec` really uses: `headWithStatus` fed by a network
`net` that answers each call and moves to its next state. -/
def realProbe {W : Type} (net : W → String → HeadEnv × W) (w : W) (url : String) :
    taskStatus × W :=
  let r := net w url
  (headWithStatus r.1 url, r.2)

/-- The URLs probed, in order. -/
def probedUrls : List SerialEvent → List String
  | [] => []
  | SerialEvent.probed u :: es => u :: probedUrls es
  | SerialEvent.tracked _ :: es => probedUrls es

/-- The outcomes tracked, in order. -/
def trackedStatuses : List SerialEvent → List taskStatus
  | [] => []
  | SerialEvent.probed _ :: es => trackedStatuses es
  | SerialEvent.tracked s :: es => s :: trackedStatuses es

/-- The probe results of the URLs in input order (reference for `serialExec`). -/
def probeResults {W : Type} (probe : W → String → taskStatus × W) :
    W → List String → List taskStatus
  | _, [] => []
  | w, u :: us => (probe w u).1 :: probeResults probe (probe w u).2 us

/-! ## Aggregation loop of `parallelExec` -/

/-- Body of the loop `for taskStatus := range resCh` (main.go:163-169): the
tracker after `track`, and whether `cancel()` is called. -/
def aggregateStep (maxOk : Int) (t : statusTracker) (status : taskStatus) :
    statusTracker × Bool :=
  let t1 := track t status
  (t1, decide (maxOk > 0 ∧ t1.ok ≥ maxOk))

/-- The aggregation loop over the outcomes received from `resCh`, from the
tracker `t`: the final tracker and, per outcome, whether `cancel()` was
called after tracking it. -/
def aggregateFrom (maxOk : Int) : statusTracker → List taskStatus → statusTracker × List Bool
  | t, [] => (t, [])
  | t, s :: rest =>
    let r := aggregateStep maxOk t s
    let r2 := aggregateFrom maxOk r.1 rest
    (r2.1, r.2 :: r2.2)

/-- The aggregation loop as `parallelExec` runs it, from a new tracker. -/
def aggregate (maxOk : Int) (received : List taskStatus) : statusTracker × List Bool :=
  aggregateFrom maxOk newStatusTracker received

/-! ## Bounded-parallel dispatcher: `parallelExec` as a transition system

The goroutines of `parallelExec` are the feeder (the anonymous `go func()`),
one task per `g.Go` call, and the consumer (the aggregation loop in
`parallelExec` itself). A state records where each of them stands; an
`Action` is one step of one of them, chosen by the scheduler.

The errgroup is a library: `g.SetLimit(n)` followed by `g.Go(f)` is modelled
by its documented contract (`Go` blocks until the number of active goroutines
of the group is below `n`; a negative `n` means no limit; a goroutine is
active until `f` has returned). No task returns a non-nil error, so the
group context `gCtx` is cancelled exactly when `cancellableCtx` is. -/

/-- A goroutine started by `g.Go`, by where it stands. -/
inductive Task where
  /-- Inside `headWithStatus(gCtx, url)`. -/
  | probing (url : String) : Task
  /-- Holding its outcome, at `resCh <- ...`. -/
  | sending (status : taskStatus) : Task
  /-- The outcome is sent; `return nil` and the release of the slot are left. -/
  | returning : Task
  deriving DecidableEq, Repr

/-- The feeder goroutine, by where it stands. -/
inductive Feeder where
  /-- At `for url := range urls`, about to receive. -/
  | ranging : Feeder
  /-- Holding `url`, inside `g.Go`, waiting for a free slot. -/
  | acquiring (url : String) : Feeder
  /-- Inside `g.Wait()`. -/
  | waiting : Feeder
  /-- Past `close(resCh)`. -/
  | closed : Feeder
  deriving DecidableEq, Repr

/-- State of one run of `parallelExec`. The fields `launched` and `tracked`
are histories, kept to state properties; the program does not read them. -/
structure ParState where
  /-- Values still to be received from the channel `urls` (closed after them). -/
  urls : List String
  feeder : Feeder
  /-- The active goroutines of the group. -/
  tasks : List Task
  /-- The outcome the consumer has received from `resCh` and not yet tracked. -/
  pending : Option taskStatus
  /-- The value of `statTracker`. -/
  tracker : statusTracker
  /-- Whether `cancellableCtx` is cancelled. -/
  cancelled : Bool
  /-- Whether the consumer has left its loop and printed the summary. -/
  finished : Bool
  /-- The URLs for which `g.Go` has started a task, in order. -/
  launched : List String
  /-- The outcomes given to `track`, in order. -/
  tracked : List taskStatus

/-- The parameters of a run. `probe e c url` is what `headWithStatus(gCtx, url)`
returns when the outside world answers `e` and `gCtx` is cancelled or not
(`c`) as the call returns. -/
structure ParConfig (E : Type) where
  probe : E → Bool → String → taskStatus
  concurrency : Int
  maxOk : Int

/-- One step of one goroutine. -/
inductive Action (E : Type) where
  /-- The feeder goes on: receives a URL, starts a task, sees the channel
  closed, or gets past `g.Wait()` and closes `resCh`. -/
  | feed : Action E
  /-- The probe of task `i` returns, the outside world having answered `e`. -/
  | probeDone (i : Nat) (e : E) : Action E
  /-- Task `i` hands its outcome to the consumer over `resCh`. -/
  | send (i : Nat) : Action E
  /-- Task `i` returns and frees its slot. -/
  | exit (i : Nat) : Action E
  /-- The consumer tracks the outcome it holds and checks the threshold. -/
  | consume : Action E
  /-- The consumer finds `resCh` closed, leaves the loop, prints the summary. -/
  | finish : Action E
  /-- The context given to `parallelExec` is cancelled from outside. -/
  | cancelParent : Action E

/-- The state `parallelExec` starts from. -/
def initState (urls : List String) : ParState :=
  { urls := urls, feeder := Feeder.ranging, tasks := [], pending := none,
    tracker := newStatusTracker, cancelled := false, finished := false,
    launched := [], tracked := [] }

/-- Whether `g.Go` can start a task now (errgroup limit). -/
def slotFree (concurrency : Int) (tasks : List Task) : Bool :=
  decide (concurrency < 0) || decide ((tasks.length : Int) < concurrency)

/-- The step of the feeder goroutine (main.go:143-160). -/
def feedStep {E : Type} (cfg : ParConfig E) (s : ParState) : Option ParState :=
  match s.feeder with
  | Feeder.ranging =>
    match s.urls with
    | u :: rest => some { s with urls := rest, feeder := Feeder.acquiring u }
    | [] => some { s with feeder := Feeder.waiting }
  | Feeder.acquiring u =>
    if slotFree cfg.concurrency s.tasks then
      some { s with tasks := s.tasks ++ [Task.probing u],
                    launched := s.launched ++ [u], feeder := Feeder.ranging }
    else none
  | Feeder.waiting =>
    if s.tasks.isEmpty then some { s with feeder := Feeder.closed } else none
  | Feeder.closed => none

/-- The step of the consumer that handles one received outcome
(main.go:164-168). -/
def consumeStep {E : Type} (cfg : ParConfig E) (s : ParState) : Option ParState :=
  match s.pending with
  | some st =>
    let r := aggregateStep cfg.maxOk s.tracker st
    some { s with pending := none, tracker := r.1, tracked := s.tracked ++ [st],
                  cancelled := s.cancelled || r.2 }
  | none => none

/-- One step of the run; `none` when the goroutine cannot take that step. -/
def step {E : Type} (cfg : ParConfig E) (s : ParState) : Action E → Option ParState
  | Action.feed => feedStep cfg s
  | Action.probeDone i e =>
    match s.tasks[i]? with
    | some (Task.probing u) =>
      some { s with tasks := s.tasks.set i (Task.sending (cfg.probe e s.cancelled u)) }
    | _ => none
  | Action.send i =>
    match s.tasks[i]? with
    | some (Task.sending st) =>
      if s.pending.isNone && !s.finished then
        some { s with tasks := s.tasks.set i Task.returning, pending := some st }
      else none
    | _ => none
  | Action.exit i =>
    match s.tasks[i]? with
    | some Task.returning => some { s with tasks := s.tasks.eraseIdx i }
    | _ => none
  | Action.consume => consumeStep cfg s
  | Action.finish =>
    if s.feeder = Feeder.closed ∧ s.pending = none ∧ s.finished = false then
      some { s with finished := true }
    else none
  | Action.cancelParent => some { s with cancelled := true }

/-- A run: the steps of a schedule one after the other. -/
def run {E : Type} (cfg : ParConfig E) : ParState → List (Action E) → Option ParState
  | s, [] => some s
  | s, a :: rest =>
    match step cfg s a with
    | some s1 => run cfg s1 rest
    | none => none

/-- The run configuration of the program: the probe is `headWithStatus`. -/
def headConfig (concurrency maxOk : Int) : ParConfig HeadEnv :=
  { probe := fun e _ url => headWithStatus e url, concurrency := concurrency, maxOk := maxOk }

/-- A run configuration with a deterministic stub probe: its outcome is a
function `p` of whether the context it is given is cancelled and of the URL,
the two arguments of `headWithStatus(gCtx, url)`. -/
def stubConfig (p : Bool → String → taskStatus) (concurrency maxOk : Int) : ParConfig Unit :=
  { probe := fun _ c url => p c url, concurrency := concurrency, maxOk := maxOk }

/-- The number of tasks that are inside their probe call. -/
def probesInFlight (s : ParState) : Nat :=
  s.tasks.countP (fun t => match t with | Task.probing _ => true | _ => false)

/-! ## `main`: the command-line options -/

/-- The options given on the command line, `none` for one that is not given. -/
structure CommandLine where
  urls : Option String
  max : Option Int
  concurrency : Option Int
  timeout : Option Int
  deriving Repr

/-- The variables behind the pointers `flag.String` and `flag.Int` return. -/
structure Flags where
  aUrls : String
  max : Int
  concurrency : Int
  timeoutSec : Int
  deriving DecidableEq, Repr

/-- The values right after the four `flag.String`/`flag.Int` calls: the defaults. -/
def flagDefaults : Flags :=
  { aUrls := "", max := 2, concurrency := 3, timeoutSec := 5 }

/-- Go `flag.Parse()`: every option given replaces the default. -/
def flagParse (cl : CommandLine) (f : Flags) : Flags :=
  { aUrls := cl.urls.getD f.aUrls, max := cl.max.getD f.max,
    concurrency := cl.concurrency.getD f.concurrency,
    timeoutSec := cl.timeout.getD f.timeoutSec }

/-- Go `time.Second`, in nanoseconds. -/
def second : Int := 1000000000

/-- The first lines of `main` (main.go:175-180), in their order: the flags are
declared, the package variable `timeout` is assigned from `*timeoutSec`, then
`flag.Parse()` runs. Returns `timeout` and the parsed flags. -/
def mainSetup (cl : CommandLine) : Int × Flags :=
  let declared := flagDefaults
  let timeout := goMul second declared.timeoutSec
  let parsed := flagParse cl declared
  (timeout, parsed)

/-- The duration of `t` seconds, as `time.Second * time.Duration(t)`. -/
def secondsDuration (t : Int) : Int := goMul second t


/-! ## Concrete inputs -/

/-- The world's answer for a server that replies with `code` after `ns` nanoseconds. -/
def replyEnv (code : Int) (ns : Int) : HeadEnv :=
  { newRequestErr := none, doResult := Except.ok code, elapsed := ns }

/-- The world's answer when the transport fails with `cause`. -/
def failEnv (url : String) (cause : GoError) (ns : Int) : HeadEnv :=
  { newRequestErr := none, doResult := Except.error (clientDoError url cause), elapsed := ns }

/-- Three outcomes of probes answered with status 404 (Scenario C). -/
def threeNotFound : List taskStatus :=
  [headWithStatus (replyEnv 404 7) "http://a", headWithStatus (replyEnv 404 8) "http://b",
   headWithStatus (replyEnv 404 9) "http://c"]

/-- A success, a cancelled probe, a timeout and a 500 reply. -/
def mixedOutcomes : List taskStatus :=
  [headWithStatus (replyEnv 200 5) "http://a",
   headWithStatus (failEnv "http://b" GoError.canceled 6) "http://b",
   headWithStatus (failEnv "http://c" GoError.deadlineExceeded 7) "http://c",
   headWithStatus (replyEnv 500 8) "http://d"]


/-- The events `serialExec` is expected to produce: for each URL in input
order, its probe and right after it the tracking of that probe's result. -/
def expectedEvents {W : Type} (probe : W → String → taskStatus × W) :
    W → List String → List SerialEvent
  | _, [] => []
  | w, u :: us =>
    SerialEvent.probed u :: SerialEvent.tracked (probe w u).1 ::
      expectedEvents probe (probe w u).2 us

/-- A network in which every server answers 200 at once (Scenarios A and B). -/
def alwaysOkNet (w : Unit) (_url : String) : HeadEnv × Unit := (replyEnv 200 1, w)

/-- Five URLs (Scenarios A and B). -/
def fiveUrls : List String := ["http://a", "http://b", "http://c", "http://d", "http://e"]


/-! ## Invariants of a run of `parallelExec` -/

/-- The URL the feeder holds between receiving it and starting its task. -/
def feederHeld : Feeder → List String
  | Feeder.acquiring u => [u]
  | _ => []

/-- What a task stands for, seen through `h` (for a URL still being probed)
and `g` (for an outcome): nothing once the outcome is handed over. -/
def taskKeys {α : Type} (h : String → α) (g : taskStatus → α) : Task → List α
  | Task.probing u => [h u]
  | Task.sending st => [g st]
  | Task.returning => []

/-- The keys of all active tasks. -/
def tasksKeys {α : Type} (h : String → α) (g : taskStatus → α) : List Task → List α
  | [] => []
  | t :: ts => taskKeys h g t ++ tasksKeys h g ts

/-- What holds in every state of a run that started from `initState urls0`:
the feeder takes the URLs in order and has started a task for each one it no
longer holds; it only waits or closes once the input is used up, only closes
when no task is active, and the consumer only finishes after the close with
nothing left to track; every task started is still probing, or its outcome is
held by the task, held by the consumer or tracked, once each (counted through
`h` and `g`); and the tracker is the result of tracking the outcomes tracked. -/
structure RunInv {α : Type} [DecidableEq α] (h : String → α) (g : taskStatus → α)
    (urls0 : List String) (s : ParState) : Prop where
  consumed : urls0 = s.launched ++ feederHeld s.feeder ++ s.urls
  drained : s.feeder = Feeder.waiting ∨ s.feeder = Feeder.closed → s.urls = []
  closedIdle : s.feeder = Feeder.closed → s.tasks = []
  finishedClosed : s.finished = true → s.feeder = Feeder.closed ∧ s.pending = none
  keys : ∀ a : α, (s.launched.map h).count a =
    (tasksKeys h g s.tasks).count a + (s.pending.toList.map g).count a +
      (s.tracked.map g).count a
  trackerEq : s.tracker = trackAll newStatusTracker s.tracked


/-- The state a schedule leads to from the start (the start state of an empty
input if the schedule cannot be run). -/
def stateAfter {E : Type} (cfg : ParConfig E) (urls : List String) (acts : List (Action E)) :
    ParState :=
  (run cfg (initState urls) acts).getD (initState [])

/-- Three URLs. -/
def threeUrls : List String := ["http://a", "http://b", "http://c"]

/-- The feeder receives and starts two URLs and receives a third. -/
def fillTwoSlots : List (Action HeadEnv) :=
  [Action.feed, Action.feed, Action.feed, Action.feed, Action.feed]


/-- The schedule that handles one URL from start to end before the next:
receive it, start its task, let the probe return with the world's answer `e`,
hand the outcome over, let the task return, track the outcome. -/
def oneByOne {E : Type} (e : E) : List (Action E) :=
  [Action.feed, Action.feed, Action.probeDone 0 e, Action.send 0, Action.exit 0,
   Action.consume]

/-- The schedule that handles the URLs one by one and then lets the feeder see
the end of the input and close, and the consumer finish. -/
def oneByOneSchedule {E : Type} (e : E) : List String → List (Action E)
  | [] => [Action.feed, Action.feed, Action.finish]
  | _ :: us => oneByOne e ++ oneByOneSchedule e us


/-- With threshold 1: the first URL is probed, answered 200 and tracked, which
reaches the threshold and calls `cancel()`. -/
def untilCancel : List (Action HeadEnv) := oneByOne (replyEnv 200 1)

/-- What can follow: the feeder receives the second and the third URL and
starts a task for each; their probes fail at once with `context.Canceled`;
both outcomes are tracked; then the run ends. -/
def afterCancel : List (Action HeadEnv) :=
  [Action.feed, Action.feed, Action.probeDone 0 (failEnv "http://b" GoError.canceled 1),
   Action.send 0, Action.exit 0, Action.consume,
   Action.feed, Action.feed, Action.probeDone 0 (failEnv "http://c" GoError.canceled 1),
   Action.send 0, Action.exit 0, Action.consume,
   Action.feed, Action.feed, Action.finish]


/-- Scenario B with every server answering 200 at once: the feeder fills the
three slots, the three probes return with status 200 before the consumer has
tracked anything, the three outcomes are tracked (the second reaches the
threshold 2 and calls `cancel()`), the tasks return; the last two URLs are
started with the context cancelled, fail with `context.Canceled` and are
tracked; the run ends. -/
def threeSucceedAtOnce : List (Action HeadEnv) :=
  [Action.feed, Action.feed, Action.feed, Action.feed, Action.feed, Action.feed,
   Action.probeDone 0 (replyEnv 200 1), Action.probeDone 1 (replyEnv 200 1),
   Action.probeDone 2 (replyEnv 200 1),
   Action.send 0, Action.consume, Action.send 1, Action.consume, Action.send 2,
   Action.consume, Action.exit 0, Action.exit 0, Action.exit 0,
   Action.feed, Action.feed, Action.probeDone 0 (failEnv "http://d" GoError.canceled 1),
   Action.send 0, Action.exit 0, Action.consume,
   Action.feed, Action.feed, Action.probeDone 0 (failEnv "http://e" GoError.canceled 1),
   Action.send 0, Action.exit 0, Action.consume,
   Action.feed, Action.feed, Action.finish]

/-- A stub probe that succeeds for every URL. -/
def okStub (url : String) : taskStatus :=
  { url := url, stat := { ResponseCode := some 200, Duration := 0 }, err := none }

/-- Two URLs. -/
def twoUrls : List String := ["http://a", "http://b"]

/-- Both probes return, then the outcome of the first URL is tracked first. -/
def firstThenSecond : List (Action Unit) :=
  [Action.feed, Action.feed, Action.feed, Action.feed,
   Action.probeDone 0 (), Action.probeDone 1 (),
   Action.send 0, Action.consume, Action.send 1, Action.consume,
   Action.exit 0, Action.exit 0, Action.feed, Action.feed, Action.finish]

/-- Both probes return, then the outcome of the second URL is tracked first. -/
def secondThenFirst : List (Action Unit) :=
  [Action.feed, Action.feed, Action.feed, Action.feed,
   Action.probeDone 1 (), Action.probeDone 0 (),
   Action.send 1, Action.consume, Action.send 0, Action.consume,
   Action.exit 0, Action.exit 0, Action.feed, Action.feed, Action.finish]

/-- A stub probe that looks at the context: cancelled when the context is,
a success otherwise. -/
def cancelAwareStub (ctxCancelled : Bool) (url : String) : taskStatus :=
  if ctxCancelled then
    { url := url, stat := { ResponseCode := none, Duration := 0 },
      err := some GoError.canceled }
  else okStub url

/-- The first URL is probed and tracked before the probe of the second returns. -/
def firstBeforeSecondReturns : List (Action Unit) :=
  [Action.feed, Action.feed, Action.feed, Action.feed,
   Action.probeDone 0 (), Action.send 0, Action.consume,
   Action.probeDone 1 (), Action.send 1, Action.consume,
   Action.exit 0, Action.exit 0, Action.feed, Action.feed, Action.finish]

/-- The command line `-urls urls.txt -timeout 10`. -/
def timeoutTen : CommandLine :=
  { urls := some "urls.txt", max := none, concurrency := none, timeout := some 10 }

end Main

/-! # Theorems -/

namespace Main

/-! ## Machine integers: lemmas -/

theorem wrapInt_of_range (x : Int) (h0 : -9223372036854775808 ≤ x)
    (h1 : x < 9223372036854775808) : wrapInt x = x := by
  unfold wrapInt
  omega

theorem goInc_of_range (x : Int) (h0 : 0 ≤ x) (h1 : x + 1 < 9223372036854775808) :
    goInc x = x + 1 := by
  unfold goInc
  exact wrapInt_of_range _ (by omega) h1

theorem wrapInt_wrapInt_add (a b : Int) : wrapInt (wrapInt a + b) = wrapInt (a + b) := by
  unfold wrapInt
  omega

theorem wrapInt_le_self (x : Int) (h : 0 ≤ x) : wrapInt x ≤ x := by
  unfold wrapInt
  omega

/-! ## The tracker -/

theorem goBalanced_new : GoBalanced newStatusTracker := by
  unfold GoBalanced newStatusTracker goAdd wrapInt
  decide

theorem goBalanced_track (t : statusTracker) (s : taskStatus) (h : GoBalanced t) :
    GoBalanced (track t s) := by
  unfold GoBalanced at *
  unfold track
  rcases hc : s.stat.ResponseCode with _ | c <;> rcases he : s.err with _ | e <;>
    simp only [] <;> try split
  all_goals
    simp only [goAdd, goInc] at *
    rw [h]
    unfold wrapInt
    omega

/-! ## The tracker field by field -/

theorem track_total (t : statusTracker) (s : taskStatus) :
    (track t s).total = goInc t.total := by
  unfold track
  rcases hr : s.stat.ResponseCode with _ | r <;> rcases he : s.err with _ | e <;>
    simp only [] <;> (try split) <;> rfl

theorem track_ok (t : statusTracker) (s : taskStatus) :
    (track t s).ok = if isOk s then goInc t.ok else t.ok := by
  unfold track isOk
  rcases hr : s.stat.ResponseCode with _ | r <;> rcases he : s.err with _ | e <;>
    simp only [] <;> split_ifs <;> simp_all

theorem track_cancelled (t : statusTracker) (s : taskStatus) :
    (track t s).cancelled = if isCancelled s then goInc t.cancelled else t.cancelled := by
  unfold track isCancelled
  rcases hr : s.stat.ResponseCode with _ | r <;> rcases he : s.err with _ | e <;>
    simp only [] <;> split_ifs <;> simp_all

theorem track_errors (t : statusTracker) (s : taskStatus) :
    (track t s).errors = if isError s then goInc t.errors else t.errors := by
  unfold track isError
  rcases hr : s.stat.ResponseCode with _ | r <;> rcases he : s.err with _ | e <;>
    simp only [] <;> split_ifs <;> simp_all

theorem track_codes (t : statusTracker) (s : taskStatus) :
    (track t s).codes =
      match s.stat.ResponseCode with
      | some c => mapInc t.codes c
      | none => t.codes := by
  unfold track
  rcases hr : s.stat.ResponseCode with _ | r <;> rcases he : s.err with _ | e <;>
    simp only [] <;> (try split) <;> rfl

theorem trackAll_append (t : statusTracker) (l : List taskStatus) (s : taskStatus) :
    trackAll t (l ++ [s]) = track (trackAll t l) s := by
  unfold trackAll
  rw [List.foldl_append]
  rfl

/-! ## The tracker against the reference counts -/

theorem holdsCounts_new : HoldsCounts newStatusTracker [] := by
  unfold HoldsCounts newStatusTracker
  simp

theorem countP_snoc_int (p : taskStatus → Bool) (l : List taskStatus) (s : taskStatus) :
    ((l ++ [s]).countP p : Int) = (l.countP p : Int) + if p s then 1 else 0 := by
  rw [List.countP_append, List.countP_cons, List.countP_nil]
  split <;> simp

theorem counter_step (p : taskStatus → Bool) (l : List taskStatus) (s : taskStatus)
    (x : Int) (hx : x = (l.countP p : Int)) (hlen : l.length + 1 < maxLen) :
    (if p s then goInc x else x) = ((l ++ [s]).countP p : Int) := by
  have hle : (l.countP p : Int) ≤ l.length := by exact_mod_cast List.countP_le_length _
  have hb : ((l.length : Int) + 1 < 9223372036854775808) := by
    unfold maxLen at hlen
    omega
  rw [countP_snoc_int, hx]
  split
  · rw [goInc_of_range _ (by omega) (by omega)]
  · simp

theorem holdsCounts_track (t : statusTracker) (l : List taskStatus) (s : taskStatus)
    (h : HoldsCounts t l) (hlen : l.length + 1 < maxLen) :
    HoldsCounts (track t s) (l ++ [s]) := by
  obtain ⟨ht, hok, hcan, herr, hcodes⟩ := h
  have hb : ((l.length : Int) + 1 < 9223372036854775808) := by
    unfold maxLen at hlen
    omega
  refine ⟨?_, ?_, ?_, ?_, ?_⟩
  · rw [track_total, ht, goInc_of_range _ (by omega) hb]
    simp
  · rw [track_ok]
    exact counter_step isOk l s _ hok hlen
  · rw [track_cancelled]
    exact counter_step isCancelled l s _ hcan hlen
  · rw [track_errors]
    exact counter_step isError l s _ herr hlen
  · intro c
    have hle : (l.countP (hasCode c) : Int) ≤ l.length := by
      exact_mod_cast List.countP_le_length _
    have hc := hcodes c
    rw [track_codes, List.countP_append, List.countP_cons, List.countP_nil]
    rcases hr : s.stat.ResponseCode with _ | r
    · simp [hasCode, hr, hc]
    · simp only [hasCode, hr, mapInc, mapGet]
      by_cases hrc : c = r
      · subst hrc
        rw [hc]
        by_cases h0 : List.countP (hasCode c) l = 0
        · simp [h0, goInc, wrapInt]
        · simp only [h0, if_false, Option.getD_some, if_true, decide_True]
          rw [goInc_of_range _ (by omega) (by omega)]
          simp
      · have hne : ¬ r = c := fun h => hrc h.symm
        simp [hrc, hne, hc]

theorem holdsCounts_trackAll (l : List taskStatus) (hlen : l.length < maxLen) :
    HoldsCounts (trackAll newStatusTracker l) l := by
  induction l using List.reverseRecOn with
  | nil => exact holdsCounts_new
  | append_singleton l s ih =>
    rw [trackAll_append]
    rw [List.length_append] at hlen
    simp only [List.length_singleton] at hlen
    exact holdsCounts_track _ l s (ih (by omega)) hlen

theorem length_eq_counts (l : List taskStatus) :
    l.length = l.countP isOk + l.countP isCancelled + l.countP isError := by
  induction l with
  | nil => rfl
  | cons s l ih =>
    simp only [List.length_cons, List.countP_cons]
    have hs : ((if isOk s then 1 else 0) + (if isCancelled s then 1 else 0) +
        (if isError s then 1 else 0) : Nat) = 1 := by
      unfold isOk isCancelled isError
      rcases he : s.err with _ | e
      · simp
      · by_cases hc : e = GoError.canceled <;> simp [hc]
    omega

theorem goBalanced_trackAll (t : statusTracker) (l : List taskStatus) (h : GoBalanced t) :
    GoBalanced (trackAll t l) := by
  induction l generalizing t with
  | nil => exact h
  | cons s l ih => exact ih (track t s) (goBalanced_track t s h)

/-- C1: for every finite sequence of outcomes tracked from a new tracker and
after every single `track` call (that is, after every number `k` of calls),
`total == ok + errors + cancelled` holds as Go evaluates it on `int`; and as
long as fewer than 2^63 outcomes have been tracked it holds as an equation of
integers as well. -/
theorem track_keeps_total_balanced (outcomes : List taskStatus) (k : Nat) :
    GoBalanced (trackAll newStatusTracker (outcomes.take k)) ∧
    (k < maxLen →
      (trackAll newStatusTracker (outcomes.take k)).total =
        (trackAll newStatusTracker (outcomes.take k)).ok +
        (trackAll newStatusTracker (outcomes.take k)).errors +
        (trackAll newStatusTracker (outcomes.take k)).cancelled) := by
  refine ⟨goBalanced_trackAll _ _ goBalanced_new, fun hk => ?_⟩
  have hlen : (outcomes.take k).length < maxLen :=
    lt_of_le_of_lt (List.length_take_le k outcomes) hk
  obtain ⟨ht, hok, hcan, herr, _⟩ := holdsCounts_trackAll (outcomes.take k) hlen
  rw [ht, hok, hcan, herr]
  have := length_eq_counts (outcomes.take k)
  omega

/-- Witness of C1: after the first three of the four mixed outcomes the
tracker has total 3 = 1 + 1 + 1. -/
theorem track_keeps_total_balanced_witness :
    (trackAll newStatusTracker (mixedOutcomes.take 3)).total = 3 ∧
    (trackAll newStatusTracker (mixedOutcomes.take 3)).total =
      (trackAll newStatusTracker (mixedOutcomes.take 3)).ok +
      (trackAll newStatusTracker (mixedOutcomes.take 3)).errors +
      (trackAll newStatusTracker (mixedOutcomes.take 3)).cancelled :=
  ⟨by decide, (track_keeps_total_balanced mixedOutcomes 3).2 (by decide)⟩

/-- C2: for every list of outcomes (of a length a Go slice can have) tracked
from a new tracker, `total` is the length of the list, `ok` the number of
outcomes without error, `cancelled` the number whose error is the cancelled
error, `errors` the number with any other error, and `codes[c]` the number of
outcomes whose response code is present and equal to `c`, whatever their
error; a code is a key of the map exactly when it occurs. -/
theorem trackAll_eq_reference_counts (outcomes : List taskStatus)
    (hlen : outcomes.length < maxLen) :
    (trackAll newStatusTracker outcomes).total = (outcomes.length : Int) ∧
    (trackAll newStatusTracker outcomes).ok = (outcomes.countP isOk : Int) ∧
    (trackAll newStatusTracker outcomes).cancelled = (outcomes.countP isCancelled : Int) ∧
    (trackAll newStatusTracker outcomes).errors = (outcomes.countP isError : Int) ∧
    ∀ c : Int,
      mapGet (trackAll newStatusTracker outcomes).codes c = (outcomes.countP (hasCode c) : Int) ∧
      ((trackAll newStatusTracker outcomes).codes c = none ↔ outcomes.countP (hasCode c) = 0) := by
  obtain ⟨ht, hok, hcan, herr, hcodes⟩ := holdsCounts_trackAll outcomes hlen
  refine ⟨ht, hok, hcan, herr, fun c => ?_⟩
  unfold mapGet
  rw [hcodes c]
  by_cases h0 : List.countP (hasCode c) outcomes = 0 <;> simp [h0]

/-- Witness of C2 (Scenario C): three outcomes with status 404 give total 3,
ok 0, cancelled 0, errors 3 and the map `{404: 3}`. -/
theorem trackAll_eq_reference_counts_witness :
    (trackAll newStatusTracker threeNotFound).total = 3 ∧
    (trackAll newStatusTracker threeNotFound).ok = 0 ∧
    (trackAll newStatusTracker threeNotFound).cancelled = 0 ∧
    (trackAll newStatusTracker threeNotFound).errors = 3 ∧
    mapGet (trackAll newStatusTracker threeNotFound).codes 404 = 3 ∧
    (trackAll newStatusTracker threeNotFound).codes 200 = none := by
  have h := trackAll_eq_reference_counts threeNotFound (by decide)
  obtain ⟨ht, hok, hcan, herr, hcodes⟩ := h
  refine ⟨?_, ?_, ?_, ?_, ?_, ?_⟩
  · rw [ht]; decide
  · rw [hok]; decide
  · rw [hcan]; decide
  · rw [herr]; decide
  · rw [(hcodes 404).1]; decide
  · rw [(hcodes 200).2]; decide

/-! ## The probe -/

/-- C3: `head` classifies every answer of the transport into one of three
cases. (1) A response with status 200: a stat with that code and no error.
(2) A response with any other status: a stat with that code and an error that
is not the cancelled error. (3) No response: a stat without code and an error;
when `http.Client.Do` failed, with its `*url.Error` around `cause`, the error
is the cancelled error exactly when `cause` is `context.Canceled`, so a timeout
(`context.DeadlineExceeded`) gives a generic error; for any error value of `Do`
it is the cancelled error exactly when `errors.Unwrap` of it is
`context.Canceled`; and when the request could not be constructed the error is
generic whatever the transport would have answered. -/
theorem head_classifies (url : String) (elapsed : Int) :
    head { newRequestErr := none, doResult := Except.ok 200, elapsed := elapsed } url =
      ({ ResponseCode := some 200, Duration := elapsed }, none) ∧
    (∀ code : Int, code ≠ 200 →
      ∃ e, head { newRequestErr := none, doResult := Except.ok code, elapsed := elapsed } url =
          ({ ResponseCode := some code, Duration := elapsed }, some e) ∧
        e ≠ GoError.canceled) ∧
    (∀ cause : GoError,
      ∃ e, head { newRequestErr := none, doResult := Except.error (clientDoError url cause),
                  elapsed := elapsed } url =
          ({ ResponseCode := none, Duration := elapsed }, some e) ∧
        (e = GoError.canceled ↔ cause = GoError.canceled)) ∧
    (∃ e, head { newRequestErr := none,
                 doResult := Except.error (clientDoError url GoError.deadlineExceeded),
                 elapsed := elapsed } url =
          ({ ResponseCode := none, Duration := elapsed }, some e) ∧
        e ≠ GoError.canceled) ∧
    (∀ err : GoError,
      ∃ e, head { newRequestErr := none, doResult := Except.error err, elapsed := elapsed } url =
          ({ ResponseCode := none, Duration := elapsed }, some e) ∧
        (e = GoError.canceled ↔ errorsUnwrap err = some GoError.canceled)) ∧
    (∀ (err : GoError) (answer : Except GoError Int),
      ∃ e, head { newRequestErr := some err, doResult := answer, elapsed := elapsed } url =
          ({ ResponseCode := none, Duration := elapsed }, some e) ∧
        e ≠ GoError.canceled) := by
  have hgen : ∀ err : GoError,
      ∃ e, head { newRequestErr := none, doResult := Except.error err, elapsed := elapsed } url =
          ({ ResponseCode := none, Duration := elapsed }, some e) ∧
        (e = GoError.canceled ↔ errorsUnwrap err = some GoError.canceled) := by
    intro err
    by_cases hu : errorsUnwrap err = some GoError.canceled
    · exact ⟨GoError.canceled, by simp [head, hu, newStat], by simp [hu]⟩
    · exact ⟨GoError.wrapError "cannot HEAD" err, by simp [head, hu, newStat], by simp [hu]⟩
  refine ⟨by simp [head, newStatWithResponseCode], ?_, ?_, ?_, hgen, ?_⟩
  · intro code hcode
    exact ⟨GoError.errorString ("non 200 status code returned: " ++ toString code),
      by simp [head, hcode, newStatWithResponseCode], by simp⟩
  · intro cause
    obtain ⟨e, he, hiff⟩ := hgen (clientDoError url cause)
    exact ⟨e, he, by simpa [clientDoError, errorsUnwrap] using hiff⟩
  · obtain ⟨e, he, hiff⟩ := hgen (clientDoError url GoError.deadlineExceeded)
    exact ⟨e, he, fun h => by simp [clientDoError, errorsUnwrap, h] at hiff⟩
  · intro err answer
    exact ⟨GoError.wrapError "cannot create HEAD request" err, by simp [head, newStat],
      by simp⟩

theorem headWithStatus_url (env : HeadEnv) (url : String) :
    (headWithStatus env url).url = url := rfl

/-! ## The sequential dispatcher -/

theorem probedUrls_append (a b : List SerialEvent) :
    probedUrls (a ++ b) = probedUrls a ++ probedUrls b := by
  induction a with
  | nil => rfl
  | cons e a ih => cases e <;> simp [probedUrls, ih]

theorem trackedStatuses_append (a b : List SerialEvent) :
    trackedStatuses (a ++ b) = trackedStatuses a ++ trackedStatuses b := by
  induction a with
  | nil => rfl
  | cons e a ih => cases e <;> simp [trackedStatuses, ih]

theorem probedUrls_expectedEvents {W : Type} (probe : W → String → taskStatus × W) (w : W)
    (urls : List String) : probedUrls (expectedEvents probe w urls) = urls := by
  induction urls generalizing w with
  | nil => rfl
  | cons u us ih => simp [expectedEvents, probedUrls, ih]

theorem trackedStatuses_expectedEvents {W : Type} (probe : W → String → taskStatus × W) (w : W)
    (urls : List String) :
    trackedStatuses (expectedEvents probe w urls) = probeResults probe w urls := by
  induction urls generalizing w with
  | nil => rfl
  | cons u us ih => simp [expectedEvents, trackedStatuses, probeResults, ih]

theorem probeResults_length {W : Type} (probe : W → String → taskStatus × W) (w : W)
    (urls : List String) : (probeResults probe w urls).length = urls.length := by
  induction urls generalizing w with
  | nil => rfl
  | cons u us ih => simp [probeResults, ih]

theorem serial_loop {W : Type} (probe : W → String → taskStatus × W) (s : SerialState W)
    (urls : List String) :
    (urls.foldl (serialBody probe) s).events = s.events ++ expectedEvents probe s.world urls ∧
    (urls.foldl (serialBody probe) s).tracker =
      trackAll s.tracker (probeResults probe s.world urls) := by
  induction urls generalizing s with
  | nil => simp [expectedEvents, probeResults, trackAll]
  | cons u us ih =>
    obtain ⟨h1, h2⟩ := ih (serialBody probe s u)
    simp only [List.foldl_cons, h1, h2]
    simp [serialBody, expectedEvents, probeResults, trackAll]

/-- C4: for every URL list (of a length a Go slice can have) and whatever the
probes return, `serialExec` probes each URL once, in input order, tracks each
result right after its probe and never stops early: its events are exactly
"probe, track" per URL, the URLs probed are the input, the outcomes tracked are
the probe results of the URLs in input order, the tracker is the result of
tracking them in that order, and the final total is the number of URLs. -/
theorem serialExec_tracks_in_order {W : Type} (probe : W → String → taskStatus × W) (w : W)
    (urls : List String) (hlen : urls.length < maxLen) :
    (serialExec probe w urls).events = expectedEvents probe w urls ∧
    probedUrls (serialExec probe w urls).events = urls ∧
    trackedStatuses (serialExec probe w urls).events = probeResults probe w urls ∧
    (serialExec probe w urls).tracker =
      trackAll newStatusTracker (probeResults probe w urls) ∧
    (serialExec probe w urls).tracker.total = (urls.length : Int) := by
  obtain ⟨h1, h2⟩ := serial_loop probe
    { world := w, tracker := newStatusTracker, events := [] } urls
  simp only [List.nil_append] at h1
  have hev : (serialExec probe w urls).events = expectedEvents probe w urls := h1
  have htr : (serialExec probe w urls).tracker =
      trackAll newStatusTracker (probeResults probe w urls) := h2
  refine ⟨hev, ?_, ?_, htr, ?_⟩
  · rw [hev, probedUrls_expectedEvents]
  · rw [hev, trackedStatuses_expectedEvents]
  · rw [htr]
    have hl := probeResults_length probe w urls
    have := (holdsCounts_trackAll (probeResults probe w urls) (by rw [hl]; exact hlen)).1
    rw [this, hl]

/-- Witness of C4 (Scenario A): five URLs whose servers all answer 200 give
total 5, ok 5, errors 0, cancelled 0, with the five URLs probed in order. -/
theorem serialExec_tracks_in_order_witness :
    probedUrls (serialExec (realProbe alwaysOkNet) () fiveUrls).events = fiveUrls ∧
    (serialExec (realProbe alwaysOkNet) () fiveUrls).tracker.total = 5 ∧
    (serialExec (realProbe alwaysOkNet) () fiveUrls).tracker.ok = 5 ∧
    (serialExec (realProbe alwaysOkNet) () fiveUrls).tracker.errors = 0 ∧
    (serialExec (realProbe alwaysOkNet) () fiveUrls).tracker.cancelled = 0 :=
  ⟨(serialExec_tracks_in_order (realProbe alwaysOkNet) () fiveUrls (by decide)).2.1,
   (serialExec_tracks_in_order (realProbe alwaysOkNet) () fiveUrls (by decide)).2.2.2.2,
   by decide, by decide, by decide⟩

/-! ## The aggregation loop -/

theorem trackAll_cons (t : statusTracker) (s : taskStatus) (l : List taskStatus) :
    trackAll t (s :: l) = trackAll (track t s) l := rfl

theorem trackAll_ok_wrap (l : List taskStatus) :
    (trackAll newStatusTracker l).ok = wrapInt (l.countP isOk : Int) := by
  induction l using List.reverseRecOn with
  | nil =>
    unfold trackAll newStatusTracker wrapInt
    decide
  | append_singleton l s ih =>
    rw [trackAll_append, track_ok, ih, countP_snoc_int]
    split
    · simp only [goInc]
      unfold wrapInt
      omega
    · simp

theorem aggregateFrom_spec (maxOk : Int) (t : statusTracker) (l : List taskStatus) :
    (aggregateFrom maxOk t l).1 = trackAll t l ∧
    (aggregateFrom maxOk t l).2.length = l.length ∧
    ∀ i : Nat, ((aggregateFrom maxOk t l).2[i]? = some true ↔
      i < l.length ∧ maxOk > 0 ∧ (trackAll t (l.take (i + 1))).ok ≥ maxOk) := by
  induction l generalizing t with
  | nil => simp [aggregateFrom, trackAll]
  | cons s l ih =>
    obtain ⟨h1, h2, h3⟩ := ih (track t s)
    refine ⟨?_, ?_, ?_⟩
    · simpa [aggregateFrom, aggregateStep, trackAll_cons] using h1
    · simpa [aggregateFrom, aggregateStep] using h2
    · intro i
      cases i with
      | zero => simp [aggregateFrom, aggregateStep, trackAll]
      | succ i =>
        have := h3 i
        simpa [aggregateFrom, aggregateStep, trackAll_cons] using this

/-- C5: in the aggregation loop of `parallelExec`, for every stream of
received outcomes and every `maxOk`, the loop tracks every outcome in the
order received, and `cancel()` is called after tracking the outcome number `i`
if and only if `maxOk > 0` and the tracker's `ok` after that outcome is at
least `maxOk`. So with `maxOk <= 0` it is never called, and when it is called
after outcome `i`, at least `maxOk` of the outcomes tracked so far are
successes. -/
theorem aggregate_cancels_iff_threshold (maxOk : Int) (received : List taskStatus) :
    (aggregate maxOk received).1 = trackAll newStatusTracker received ∧
    (aggregate maxOk received).2.length = received.length ∧
    (∀ i : Nat, ((aggregate maxOk received).2[i]? = some true ↔
      i < received.length ∧ maxOk > 0 ∧
        (trackAll newStatusTracker (received.take (i + 1))).ok ≥ maxOk)) ∧
    (maxOk ≤ 0 → ∀ i : Nat, (aggregate maxOk received).2[i]? ≠ some true) ∧
    (∀ i : Nat, (aggregate maxOk received).2[i]? = some true →
      maxOk ≤ ((received.take (i + 1)).countP isOk : Int)) := by
  obtain ⟨h1, h2, h3⟩ := aggregateFrom_spec maxOk newStatusTracker received
  refine ⟨h1, h2, h3, ?_, ?_⟩
  · intro hle i hi
    have := ((h3 i).1 hi).2.1
    omega
  · intro i hi
    obtain ⟨_, hpos, hok⟩ := (h3 i).1 hi
    rw [trackAll_ok_wrap] at hok
    have := wrapInt_le_self ((received.take (i + 1)).countP isOk : Int) (by omega)
    omega

/-- Witness of C5: with `maxOk = 1` and the four mixed outcomes, `cancel()` is
called after each of them (the first is a success); with `maxOk = 2` or
`maxOk = 0` it is never called. -/
theorem aggregate_cancels_iff_threshold_witness :
    (aggregate 1 mixedOutcomes).2 = [true, true, true, true] ∧
    (aggregate 2 mixedOutcomes).2 = [false, false, false, false] ∧
    (aggregate 0 mixedOutcomes).2 = [false, false, false, false] ∧
    (aggregate 0 mixedOutcomes).2[0]? ≠ some true :=
  ⟨by decide, by decide, by decide,
    (aggregate_cancels_iff_threshold 0 mixedOutcomes).2.2.2.1 (by decide) 0⟩

/-! ## The bounded-parallel dispatcher: invariants -/

theorem run_induction {E : Type} (cfg : ParConfig E) (P : ParState → Prop)
    (hstep : ∀ s a s1, P s → step cfg s a = some s1 → P s1)
    (s : ParState) (acts : List (Action E)) (s1 : ParState)
    (h0 : P s) (hrun : run cfg s acts = some s1) : P s1 := by
  induction acts generalizing s with
  | nil =>
    simp only [run, Option.some.injEq] at hrun
    exact hrun ▸ h0
  | cons a rest ih =>
    simp only [run] at hrun
    rcases hs : step cfg s a with _ | s2
    · simp [hs] at hrun
    · rw [hs] at hrun
      exact ih s2 (hstep s a s2 h0 hs) hrun

theorem run_append {E : Type} (cfg : ParConfig E) (s : ParState) (a b : List (Action E)) :
    run cfg s (a ++ b) = (run cfg s a).bind (fun s1 => run cfg s1 b) := by
  induction a generalizing s with
  | nil => rfl
  | cons x a ih =>
    simp only [List.cons_append, run]
    rcases step cfg s x with _ | s2
    · rfl
    · exact ih s2

theorem tasks_le_limit_step {E : Type} (cfg : ParConfig E) (hN : 0 ≤ cfg.concurrency)
    (s : ParState) (a : Action E) (s1 : ParState)
    (h : (s.tasks.length : Int) ≤ cfg.concurrency) (hs : step cfg s a = some s1) :
    (s1.tasks.length : Int) ≤ cfg.concurrency := by
  cases a with
  | feed =>
    simp only [step, feedStep] at hs
    split at hs
    · split at hs <;> (simp only [Option.some.injEq] at hs; subst hs; exact h)
    · split at hs
      · rename_i hfree
        simp only [Option.some.injEq] at hs
        subst hs
        simp only [slotFree, Bool.or_eq_true, decide_eq_true_eq] at hfree
        simp only [List.length_append, List.length_singleton, Nat.cast_add, Nat.cast_one]
        omega
      · simp at hs
    · split at hs
      · simp only [Option.some.injEq] at hs; subst hs; exact h
      · simp at hs
    · simp at hs
  | probeDone i e =>
    simp only [step] at hs
    split at hs
    · simp only [Option.some.injEq] at hs; subst hs
      simpa using h
    · simp at hs
  | send i =>
    simp only [step] at hs
    split at hs
    · split at hs
      · simp only [Option.some.injEq] at hs; subst hs
        simpa using h
      · simp at hs
    · simp at hs
  | exit i =>
    simp only [step] at hs
    split at hs
    · simp only [Option.some.injEq] at hs; subst hs
      have := List.length_eraseIdx_le s.tasks i
      simp only
      omega
    · simp at hs
  | consume =>
    simp only [step, consumeStep] at hs
    split at hs
    · simp only [Option.some.injEq] at hs; subst hs; exact h
    · simp at hs
  | finish =>
    simp only [step] at hs
    split at hs
    · simp only [Option.some.injEq] at hs; subst hs; exact h
    · simp at hs
  | cancelParent =>
    simp only [step, Option.some.injEq] at hs
    subst hs; exact h

theorem probesInFlight_le_tasks (s : ParState) : probesInFlight s ≤ s.tasks.length :=
  List.countP_le_length _

/-- C7: in every state a run of `parallelExec` with concurrency `N` can
reach (for every `N >= 0`, so for every `N > 1`), under every schedule and
whatever the probes return, the number of tasks inside their probe call, and
even the number of tasks started by the feeder and not yet returned, is at
most `N`. -/
theorem probes_in_flight_le_concurrency {E : Type} (cfg : ParConfig E)
    (urls : List String) (acts : List (Action E)) (s : ParState)
    (hN : 0 ≤ cfg.concurrency) (hrun : run cfg (initState urls) acts = some s) :
    (probesInFlight s : Int) ≤ cfg.concurrency ∧ (s.tasks.length : Int) ≤ cfg.concurrency := by
  have hlen : (s.tasks.length : Int) ≤ cfg.concurrency :=
    run_induction cfg (fun s => (s.tasks.length : Int) ≤ cfg.concurrency)
      (fun s a s1 h hs => tasks_le_limit_step cfg hN s a s1 h hs)
      (initState urls) acts s (by simpa [initState] using hN) hrun
  have := probesInFlight_le_tasks s
  omega

/-- Witness of C7: with concurrency 2 and three URLs, after the feeder has
started two tasks and received the third URL, two probes are in flight, the
bound holds, and the feeder cannot start the third task. -/
theorem probes_in_flight_le_concurrency_witness :
    probesInFlight (stateAfter (headConfig 2 0) threeUrls fillTwoSlots) = 2 ∧
    (step (headConfig 2 0) (stateAfter (headConfig 2 0) threeUrls fillTwoSlots)
      Action.feed).isNone = true ∧
    (probesInFlight (stateAfter (headConfig 2 0) threeUrls fillTwoSlots) : Int) ≤ 2 :=
  ⟨by decide, by decide,
    (probes_in_flight_le_concurrency (headConfig 2 0) threeUrls fillTwoSlots
      (stateAfter (headConfig 2 0) threeUrls fillTwoSlots) (by decide) rfl).1⟩

theorem tasksKeys_append {α : Type} (h : String → α) (g : taskStatus → α) (a b : List Task) :
    tasksKeys h g (a ++ b) = tasksKeys h g a ++ tasksKeys h g b := by
  induction a with
  | nil => rfl
  | cons t a ih => simp [tasksKeys, ih]

theorem count_tasksKeys_set {α : Type} [DecidableEq α] (h : String → α) (g : taskStatus → α)
    (a : α) (l : List Task) (i : Nat) (x y : Task) (hx : l[i]? = some x) :
    (tasksKeys h g (l.set i y)).count a + (taskKeys h g x).count a =
      (tasksKeys h g l).count a + (taskKeys h g y).count a := by
  induction l generalizing i with
  | nil => simp at hx
  | cons t l ih =>
    cases i with
    | zero =>
      simp only [List.getElem?_cons_zero, Option.some.injEq] at hx
      subst hx
      simp only [List.set_cons_zero, tasksKeys, List.count_append]
      omega
    | succ i =>
      simp only [List.getElem?_cons_succ] at hx
      have := ih i hx
      simp only [List.set_cons_succ, tasksKeys, List.count_append]
      omega

theorem count_tasksKeys_eraseIdx {α : Type} [DecidableEq α] (h : String → α)
    (g : taskStatus → α) (a : α) (l : List Task) (i : Nat) (x : Task) (hx : l[i]? = some x) :
    (tasksKeys h g (l.eraseIdx i)).count a + (taskKeys h g x).count a =
      (tasksKeys h g l).count a := by
  induction l generalizing i with
  | nil => simp at hx
  | cons t l ih =>
    cases i with
    | zero =>
      simp only [List.getElem?_cons_zero, Option.some.injEq] at hx
      subst hx
      simp only [List.eraseIdx_cons_zero, tasksKeys, List.count_append]
      omega
    | succ i =>
      simp only [List.getElem?_cons_succ] at hx
      have := ih i hx
      simp only [List.eraseIdx_cons_succ, tasksKeys, List.count_append]
      omega

theorem runInv_init {α : Type} [DecidableEq α] (h : String → α) (g : taskStatus → α)
    (urls0 : List String) : RunInv h g urls0 (initState urls0) where
  consumed := by simp [initState, feederHeld]
  drained := by simp [initState]
  closedIdle := by simp [initState]
  finishedClosed := by simp [initState]
  keys := by simp [initState, tasksKeys]
  trackerEq := by simp [initState, trackAll]

theorem runInv_step {E α : Type} [DecidableEq α] (cfg : ParConfig E) (h : String → α)
    (g : taskStatus → α) (urls0 : List String)
    (s : ParState) (a : Action E) (s1 : ParState)
    (hk : ∀ e u, g (cfg.probe e s.cancelled u) = h u)
    (inv : RunInv h g urls0 s) (hs : step cfg s a = some s1) : RunInv h g urls0 s1 := by
  obtain ⟨hcons, hdr, hcl, hfin, hkeys, htr⟩ := inv
  cases a with
  | feed =>
    simp only [step, feedStep] at hs
    split at hs
    · rename_i hf
      split at hs
      · rename_i u rest hu
        simp only [Option.some.injEq] at hs; subst hs
        refine ⟨?_, ?_, ?_, ?_, hkeys, htr⟩
        · simpa [hf, hu, feederHeld] using hcons
        · simp
        · simp
        · intro hfin1
          have := (hfin hfin1).1
          simp [hf] at this
      · rename_i hu
        simp only [Option.some.injEq] at hs; subst hs
        refine ⟨?_, ?_, ?_, ?_, hkeys, htr⟩
        · simpa [hf, hu, feederHeld] using hcons
        · intro _; exact hu
        · simp
        · intro hfin1
          have := (hfin hfin1).1
          simp [hf] at this
    · rename_i u hf
      split at hs
      · simp only [Option.some.injEq] at hs; subst hs
        refine ⟨?_, ?_, ?_, ?_, ?_, htr⟩
        · simpa [hf, feederHeld] using hcons
        · simp
        · simp
        · intro hfin1
          have := (hfin hfin1).1
          simp [hf] at this
        · intro a
          have := hkeys a
          simp only [List.map_append, List.count_append, tasksKeys_append, tasksKeys, taskKeys,
            List.map_cons, List.map_nil, List.append_nil]
          omega
      · simp at hs
    · rename_i hf
      split at hs
      · rename_i hempty
        simp only [Option.some.injEq] at hs; subst hs
        refine ⟨?_, ?_, ?_, ?_, hkeys, htr⟩
        · simpa [hf, feederHeld] using hcons
        · intro _; exact hdr (Or.inl hf)
        · intro _; simpa using hempty
        · intro hfin1
          have := (hfin hfin1).1
          simp [hf] at this
      · simp at hs
    · simp at hs
  | probeDone i e =>
    simp only [step] at hs
    split at hs
    · rename_i u hi
      simp only [Option.some.injEq] at hs; subst hs
      refine ⟨hcons, hdr, ?_, hfin, ?_, htr⟩
      · intro hc
        have := hcl hc
        simp [this] at hi
      · intro a
        have h1 := hkeys a
        have h2 := count_tasksKeys_set h g a s.tasks i (Task.probing u)
          (Task.sending (cfg.probe e s.cancelled u)) hi
        simp only [taskKeys, hk] at h2
        simp only
        omega
    · simp at hs
  | send i =>
    simp only [step] at hs
    split at hs
    · rename_i st hi
      split at hs
      · rename_i hcond
        simp only [Bool.and_eq_true, Option.isNone_iff_eq_none, Bool.not_eq_true'] at hcond
        simp only [Option.some.injEq] at hs; subst hs
        refine ⟨hcons, hdr, ?_, ?_, ?_, htr⟩
        · intro hc
          have := hcl hc
          simp [this] at hi
        · intro hfin1
          simp [hcond.2] at hfin1
        · intro a
          have h1 := hkeys a
          have h2 := count_tasksKeys_set h g a s.tasks i (Task.sending st) Task.returning hi
          simp only [taskKeys, List.count_nil, add_zero] at h2
          simp only [hcond.1, Option.toList_none, List.map_nil, List.count_nil] at h1
          simp only [Option.toList_some, List.map_cons, List.map_nil]
          omega
      · simp at hs
    · simp at hs
  | exit i =>
    simp only [step] at hs
    split at hs
    · rename_i hi
      simp only [Option.some.injEq] at hs; subst hs
      refine ⟨hcons, hdr, ?_, hfin, ?_, htr⟩
      · intro hc
        have := hcl hc
        simp [this] at hi
      · intro a
        have h1 := hkeys a
        have h2 := count_tasksKeys_eraseIdx h g a s.tasks i Task.returning hi
        simp only [taskKeys, List.count_nil, add_zero] at h2
        simp only
        omega
    · simp at hs
  | consume =>
    simp only [step, consumeStep] at hs
    split at hs
    · rename_i st hp
      simp only [Option.some.injEq] at hs; subst hs
      refine ⟨hcons, hdr, hcl, ?_, ?_, ?_⟩
      · intro hfin1
        have := (hfin hfin1).2
        simp [hp] at this
      · intro a
        have h1 := hkeys a
        simp only [hp, Option.toList_some, List.map_cons, List.map_nil] at h1
        simp only [Option.toList_none, List.map_nil, List.count_nil, List.map_append,
          List.count_append, List.map_cons]
        omega
      · simp only [aggregateStep]
        rw [trackAll_append, ← htr]
    · simp at hs
  | finish =>
    simp only [step] at hs
    split at hs
    · rename_i hcond
      simp only [Option.some.injEq] at hs; subst hs
      exact ⟨hcons, hdr, hcl, fun _ => ⟨hcond.1, hcond.2.1⟩, hkeys, htr⟩
    · simp at hs
  | cancelParent =>
    simp only [step, Option.some.injEq] at hs
    subst hs
    exact ⟨hcons, hdr, hcl, hfin, hkeys, htr⟩

theorem runInv_run {E α : Type} [DecidableEq α] (cfg : ParConfig E) (h : String → α)
    (g : taskStatus → α) (hk : ∀ e c u, g (cfg.probe e c u) = h u) (urls0 : List String)
    (acts : List (Action E)) (s : ParState)
    (hrun : run cfg (initState urls0) acts = some s) : RunInv h g urls0 s :=
  run_induction cfg (RunInv h g urls0)
    (fun s a s1 inv hs =>
      runInv_step cfg h g urls0 s a s1 (fun e u => hk e s.cancelled u) inv hs)
    (initState urls0) acts s (runInv_init h g urls0) hrun

theorem runInv_finished {α : Type} [DecidableEq α] (h : String → α) (g : taskStatus → α)
    (urls0 : List String) (s : ParState) (inv : RunInv h g urls0 s)
    (hfin : s.finished = true) :
    s.launched = urls0 ∧ s.urls = [] ∧ s.tasks = [] ∧ s.pending = none ∧
    (s.tracked.map g).Perm (urls0.map h) ∧
    s.tracker = trackAll newStatusTracker s.tracked := by
  obtain ⟨hcons, hdr, hcl, hf, hkeys, htr⟩ := inv
  obtain ⟨hclosed, hpend⟩ := hf hfin
  have hurls := hdr (Or.inr hclosed)
  have htasks := hcl hclosed
  have hl : s.launched = urls0 := by
    rw [hcons, hurls, hclosed]
    simp [feederHeld]
  refine ⟨hl, hurls, htasks, hpend, ?_, htr⟩
  rw [List.perm_iff_count]
  intro a
  have := hkeys a
  rw [htasks, hpend, hl] at this
  simp only [tasksKeys, List.count_nil, Option.toList_none, List.map_nil, zero_add] at this
  exact this.symm

/-! ## The tracker does not depend on the order of the outcomes -/

theorem statusTracker_ext (a b : statusTracker) (h1 : a.total = b.total) (h2 : a.ok = b.ok)
    (h3 : a.errors = b.errors) (h4 : a.cancelled = b.cancelled) (h5 : a.codes = b.codes) :
    a = b := by
  cases a
  cases b
  simp only [statusTracker.mk.injEq]
  exact ⟨h1, h2, h3, h4, h5⟩

theorem mapInc_comm (m : Int → Option Int) (a b : Int) :
    mapInc (mapInc m a) b = mapInc (mapInc m b) a := by
  by_cases hab : a = b
  · subst hab; rfl
  · have hba : ¬ b = a := fun h => hab h.symm
    funext j
    unfold mapInc mapGet
    by_cases hja : j = a
    · subst hja
      simp [hab, hba]
    · by_cases hjb : j = b
      · subst hjb
        simp [hab, hba]
      · simp [hja, hjb]

theorem track_comm (t : statusTracker) (a b : taskStatus) :
    track (track t a) b = track (track t b) a := by
  apply statusTracker_ext
  · simp only [track_total]
  · simp only [track_ok]
    split <;> split <;> rfl
  · simp only [track_errors]
    split <;> split <;> rfl
  · simp only [track_cancelled]
    split <;> split <;> rfl
  · simp only [track_codes]
    rcases a.stat.ResponseCode with _ | ca <;> rcases b.stat.ResponseCode with _ | cb <;>
      simp only []
    exact mapInc_comm t.codes ca cb

theorem trackAll_perm (t : statusTracker) (l1 l2 : List taskStatus) (hp : l1.Perm l2) :
    trackAll t l1 = trackAll t l2 :=
  List.Perm.foldl_eq' hp (fun x _ y _ z => track_comm z x y) t

/-! ## Every input has a complete run -/

theorem slotFree_nil (n : Int) (hn : n ≠ 0) : slotFree n [] = true := by
  simp only [slotFree, List.length_nil, Nat.cast_zero, Bool.or_eq_true, decide_eq_true_eq]
  omega

theorem oneByOne_completes {E : Type} (cfg : ParConfig E) (hn : cfg.concurrency ≠ 0) (e : E)
    (us : List String) (tracker : statusTracker) (cancelled : Bool) (launched : List String)
    (tracked : List taskStatus) :
    ∃ s1, run cfg { urls := us, feeder := Feeder.ranging, tasks := [], pending := none,
                    tracker := tracker, cancelled := cancelled, finished := false,
                    launched := launched, tracked := tracked }
              (oneByOneSchedule e us) = some s1 ∧ s1.finished = true := by
  induction us generalizing tracker cancelled launched tracked with
  | nil =>
    simp [oneByOneSchedule, run, step, feedStep]
  | cons u us ih =>
    simp only [oneByOneSchedule, run_append]
    obtain ⟨s1, h1, h2⟩ := ih (aggregateStep cfg.maxOk tracker (cfg.probe e cancelled u)).1
      (cancelled || (aggregateStep cfg.maxOk tracker (cfg.probe e cancelled u)).2)
      (launched ++ [u]) (tracked ++ [cfg.probe e cancelled u])
    refine ⟨s1, ?_, h2⟩
    rw [← h1]
    simp [oneByOne, run, step, feedStep, consumeStep, slotFree_nil cfg.concurrency hn]

/-- Whatever the URLs, the probe and the threshold, `parallelExec` with a
concurrency other than zero has a run that ends with the summary printed. -/
theorem complete_run_exists {E : Type} (cfg : ParConfig E) (hn : cfg.concurrency ≠ 0) (e : E)
    (urls : List String) :
    ∃ s, run cfg (initState urls) (oneByOneSchedule e urls) = some s ∧ s.finished = true :=
  oneByOne_completes cfg hn e urls newStatusTracker false [] []

/-! ## What cancellation does to the feeder -/

/-- Counterexample to C6: three URLs, concurrency 2, threshold 1. When the
outcome of the first URL has been tracked, `ok` is 1, the context is cancelled,
one task has been started and two URLs are still in the channel. The run goes
on: the feeder receives both URLs and starts a task for each, and both outcomes
are tracked and counted, in `total` and in `cancelled`. -/
theorem feeder_launches_after_cancel :
    (run (headConfig 2 1) (initState threeUrls) (untilCancel ++ afterCancel)).isSome = true ∧
    (stateAfter (headConfig 2 1) threeUrls untilCancel).cancelled = true ∧
    (stateAfter (headConfig 2 1) threeUrls untilCancel).tracker.ok = 1 ∧
    (stateAfter (headConfig 2 1) threeUrls untilCancel).launched = ["http://a"] ∧
    (stateAfter (headConfig 2 1) threeUrls untilCancel).urls = ["http://b", "http://c"] ∧
    (stateAfter (headConfig 2 1) threeUrls (untilCancel ++ afterCancel)).finished = true ∧
    (stateAfter (headConfig 2 1) threeUrls (untilCancel ++ afterCancel)).launched =
      ["http://a", "http://b", "http://c"] ∧
    (stateAfter (headConfig 2 1) threeUrls (untilCancel ++ afterCancel)).urls = [] ∧
    (stateAfter (headConfig 2 1) threeUrls (untilCancel ++ afterCancel)).tracked.map
      (fun st => st.url) = ["http://a", "http://b", "http://c"] ∧
    (stateAfter (headConfig 2 1) threeUrls (untilCancel ++ afterCancel)).tracker.total = 3 ∧
    (stateAfter (headConfig 2 1) threeUrls (untilCancel ++ afterCancel)).tracker.ok = 1 ∧
    (stateAfter (headConfig 2 1) threeUrls (untilCancel ++ afterCancel)).tracker.cancelled = 2 := by
  refine ⟨?_, ?_, ?_, ?_, ?_, ?_, ?_, ?_, ?_, ?_, ?_, ?_⟩ <;> decide

theorem feedStep_ignores_cancelled {E : Type} (cfg : ParConfig E) (s : ParState) (b : Bool) :
    (feedStep cfg { s with cancelled := b }).isSome = (feedStep cfg s).isSome := by
  unfold feedStep
  rcases hf : s.feeder with _ | u | _ | _ <;> simp only []
  · rcases hu : s.urls with _ | ⟨u, rest⟩ <;> simp
  · split <;> simp
  · split <;> simp

/-- C6, amended: for every run of `parallelExec` (on an input of a length a
Go slice can have), whatever the threshold, the feeder takes its steps without
looking at the cancellation of the context (what it can do in a state does not
depend on it); and in every run that has ended, every URL of the input had its
task started, in input order, nothing is left in the channel, the outcomes
tracked are one per URL, and `total` is the number of URLs. -/
theorem parallelExec_tracks_every_url (concurrency maxOk : Int) (urls : List String)
    (acts : List (Action HeadEnv)) (s : ParState) (hlen : urls.length < maxLen)
    (hrun : run (headConfig concurrency maxOk) (initState urls) acts = some s)
    (hfin : s.finished = true) :
    (∀ (s0 : ParState) (b : Bool),
      (feedStep (headConfig concurrency maxOk) { s0 with cancelled := b }).isSome =
        (feedStep (headConfig concurrency maxOk) s0).isSome) ∧
    s.launched = urls ∧ s.urls = [] ∧
    (s.tracked.map (fun st => st.url)).Perm urls ∧
    s.tracker = trackAll newStatusTracker s.tracked ∧
    s.tracker.total = (urls.length : Int) := by
  have inv := runInv_run (headConfig concurrency maxOk) (fun u => u) (fun st => st.url)
    (fun e _ u => headWithStatus_url e u) urls acts s hrun
  obtain ⟨hl, hu, _, _, hperm, htr⟩ := runInv_finished _ _ urls s inv hfin
  rw [List.map_id'] at hperm
  refine ⟨feedStep_ignores_cancelled _, hl, hu, hperm, htr, ?_⟩
  have hlen2 : s.tracked.length = urls.length := by
    have := hperm.length_eq
    simpa using this
  rw [htr, (holdsCounts_trackAll s.tracked (by rw [hlen2]; exact hlen)).1, hlen2]

/-- Witness of the amended C6: the run of the counterexample, in which the
threshold is reached after the first URL, ends with all three URLs started and
total 3. -/
theorem parallelExec_tracks_every_url_witness :
    (stateAfter (headConfig 2 1) threeUrls (untilCancel ++ afterCancel)).launched = threeUrls ∧
    (stateAfter (headConfig 2 1) threeUrls (untilCancel ++ afterCancel)).tracker.total = 3 :=
  ⟨(parallelExec_tracks_every_url 2 1 threeUrls (untilCancel ++ afterCancel)
      (stateAfter (headConfig 2 1) threeUrls (untilCancel ++ afterCancel))
      (by decide) rfl (by decide)).2.1,
   (parallelExec_tracks_every_url 2 1 threeUrls (untilCancel ++ afterCancel)
      (stateAfter (headConfig 2 1) threeUrls (untilCancel ++ afterCancel))
      (by decide) rfl (by decide)).2.2.2.2.2⟩

/-! ## The success threshold -/

/-- C8 at a failing input (Scenario B: five URLs, concurrency 3, threshold 2,
every server answering 200 at once): the run ends, `cancel()` has been called,
and the summary has ok 3, not 2 (total 5, cancelled 2). -/
theorem threshold_overshoot :
    (run (headConfig 3 2) (initState fiveUrls) threeSucceedAtOnce).isSome = true ∧
    (stateAfter (headConfig 3 2) fiveUrls threeSucceedAtOnce).finished = true ∧
    (stateAfter (headConfig 3 2) fiveUrls threeSucceedAtOnce).cancelled = true ∧
    (stateAfter (headConfig 3 2) fiveUrls threeSucceedAtOnce).tracker.ok = 3 ∧
    (stateAfter (headConfig 3 2) fiveUrls threeSucceedAtOnce).tracker.total = 5 ∧
    (stateAfter (headConfig 3 2) fiveUrls threeSucceedAtOnce).tracker.cancelled = 2 ∧
    (stateAfter (headConfig 3 2) fiveUrls threeSucceedAtOnce).tracker.errors = 0 := by
  refine ⟨?_, ?_, ?_, ?_, ?_, ?_, ?_⟩ <;> decide

/-! ## Repeated runs -/

theorem run_induction_mem {E : Type} (cfg : ParConfig E) (P : ParState → Prop)
    (acts : List (Action E))
    (hstep : ∀ s a s1, a ∈ acts → P s → step cfg s a = some s1 → P s1)
    (s s1 : ParState) (h0 : P s) (hrun : run cfg s acts = some s1) : P s1 := by
  induction acts generalizing s with
  | nil =>
    simp only [run, Option.some.injEq] at hrun
    exact hrun ▸ h0
  | cons a rest ih =>
    simp only [run] at hrun
    rcases hs : step cfg s a with _ | s2
    · simp [hs] at hrun
    · rw [hs] at hrun
      exact ih (fun t b t1 hm => hstep t b t1 (List.mem_cons_of_mem _ hm)) s2
        (hstep s a s2 (List.mem_cons_self _ _) h0 hs) hrun

theorem cancelled_stays_false {E : Type} (cfg : ParConfig E) (hM : cfg.maxOk ≤ 0)
    (s : ParState) (a : Action E) (s1 : ParState) (ha : a ≠ Action.cancelParent)
    (hc : s.cancelled = false) (hs : step cfg s a = some s1) : s1.cancelled = false := by
  cases a with
  | feed =>
    simp only [step, feedStep] at hs
    split at hs
    · split at hs <;> (simp only [Option.some.injEq] at hs; subst hs; exact hc)
    · split at hs
      · simp only [Option.some.injEq] at hs; subst hs; exact hc
      · simp at hs
    · split at hs
      · simp only [Option.some.injEq] at hs; subst hs; exact hc
      · simp at hs
    · simp at hs
  | probeDone i e =>
    simp only [step] at hs
    split at hs
    · simp only [Option.some.injEq] at hs; subst hs; exact hc
    · simp at hs
  | send i =>
    simp only [step] at hs
    split at hs
    · split at hs
      · simp only [Option.some.injEq] at hs; subst hs; exact hc
      · simp at hs
    · simp at hs
  | exit i =>
    simp only [step] at hs
    split at hs
    · simp only [Option.some.injEq] at hs; subst hs; exact hc
    · simp at hs
  | consume =>
    simp only [step, consumeStep] at hs
    split at hs
    · simp only [Option.some.injEq] at hs; subst hs
      simp only [aggregateStep, hc, Bool.false_or, decide_eq_false_iff_not]
      intro hpos
      omega
    · simp at hs
  | finish =>
    simp only [step] at hs
    split at hs
    · simp only [Option.some.injEq] at hs; subst hs; exact hc
    · simp at hs
  | cancelParent => exact absurd rfl ha

theorem runInv_run_quiet {E α : Type} [DecidableEq α] (cfg : ParConfig E) (h : String → α)
    (g : taskStatus → α) (hM : cfg.maxOk ≤ 0) (hk : ∀ e u, g (cfg.probe e false u) = h u)
    (urls0 : List String) (acts : List (Action E)) (hq : Action.cancelParent ∉ acts)
    (s : ParState) (hrun : run cfg (initState urls0) acts = some s) : RunInv h g urls0 s :=
  (run_induction_mem cfg (fun t => RunInv h g urls0 t ∧ t.cancelled = false) acts
    (fun t a t1 hm inv hs =>
      ⟨runInv_step cfg h g urls0 t a t1 (fun e u => by rw [inv.2]; exact hk e u) inv.1 hs,
       cancelled_stays_false cfg hM t a t1 (fun hEq => hq (hEq ▸ hm)) inv.2 hs⟩)
    (initState urls0) s ⟨runInv_init h g urls0, rfl⟩ hrun).1

theorem serialExec_stub (f : String → taskStatus) (urls : List String) :
    (serialExec (fun (w : Unit) u => (f u, w)) () urls).tracker =
      trackAll newStatusTracker (urls.map f) := by
  have h := (serial_loop (fun (w : Unit) u => (f u, w))
    { world := (), tracker := newStatusTracker, events := [] } urls).2
  have hp : ∀ (w : Unit) (l : List String),
      probeResults (fun (w : Unit) u => (f u, w)) w l = l.map f := by
    intro w l
    induction l with
    | nil => rfl
    | cons u l ih => simp [probeResults, ih]
  rw [hp] at h
  exact h

theorem parallel_stub_tracker (p : Bool → String → taskStatus) (concurrency maxOk : Int)
    (urls : List String) (acts : List (Action Unit)) (s : ParState)
    (hp : (∀ u, p true u = p false u) ∨ (maxOk ≤ 0 ∧ Action.cancelParent ∉ acts))
    (hrun : run (stubConfig p concurrency maxOk) (initState urls) acts = some s)
    (hfin : s.finished = true) :
    s.tracker = trackAll newStatusTracker (urls.map (p false)) := by
  have inv : RunInv (p false) (fun st => st) urls s := by
    rcases hp with hsame | ⟨hM, hq⟩
    · refine runInv_run (stubConfig p concurrency maxOk) (p false) (fun st => st) ?_ urls acts s
        hrun
      intro _ c u
      cases c
      · rfl
      · exact hsame u
    · exact runInv_run_quiet (stubConfig p concurrency maxOk) (p false) (fun st => st) hM
        (fun _ _ => rfl) urls acts hq s hrun
  obtain ⟨_, _, _, _, hperm, htr⟩ := runInv_finished _ _ urls s inv hfin
  rw [List.map_id'] at hperm
  rw [htr]
  exact trackAll_perm _ _ _ hperm

/-- Counterexample to C9: one URL list (two URLs), one configuration
(concurrency 2, threshold 1) and one deterministic probe, which returns the
cancelled outcome when the context it is given is cancelled and a success
otherwise. Both schedules are runs that end. When both probes return before
the first outcome is tracked the summary has ok 2, cancelled 0; when the second
probe returns after the first outcome was tracked (which cancels the context)
the summary has ok 1, cancelled 1. -/
theorem deterministic_probe_summaries_differ :
    (run (stubConfig cancelAwareStub 2 1) (initState twoUrls) firstThenSecond).isSome = true ∧
    (stateAfter (stubConfig cancelAwareStub 2 1) twoUrls firstThenSecond).finished = true ∧
    (stateAfter (stubConfig cancelAwareStub 2 1) twoUrls firstThenSecond).tracker.ok = 2 ∧
    (stateAfter (stubConfig cancelAwareStub 2 1) twoUrls firstThenSecond).tracker.cancelled
      = 0 ∧
    (run (stubConfig cancelAwareStub 2 1) (initState twoUrls)
      firstBeforeSecondReturns).isSome = true ∧
    (stateAfter (stubConfig cancelAwareStub 2 1) twoUrls firstBeforeSecondReturns).finished
      = true ∧
    (stateAfter (stubConfig cancelAwareStub 2 1) twoUrls firstBeforeSecondReturns).tracker.ok
      = 1 ∧
    (stateAfter (stubConfig cancelAwareStub 2 1) twoUrls
      firstBeforeSecondReturns).tracker.cancelled = 1 ∧
    (stateAfter (stubConfig cancelAwareStub 2 1) twoUrls firstThenSecond).tracker ≠
      (stateAfter (stubConfig cancelAwareStub 2 1) twoUrls firstBeforeSecondReturns).tracker := by
  refine ⟨?_, ?_, ?_, ?_, ?_, ?_, ?_, ?_, ?_⟩
  · decide
  · decide
  · decide
  · decide
  · decide
  · decide
  · decide
  · decide
  · intro heq
    have hok := congrArg statusTracker.ok heq
    revert hok
    decide

/-- C9, amended: for every URL list, every concurrency and threshold and every
deterministic probe `p` (a function of whether the context it is given is
cancelled and of the URL), provided that the outcome of `p` does not depend on
the cancellation of the context, or that the threshold is off (`maxOk <= 0`)
and the context is not cancelled from outside during the two runs: any two
runs of `parallelExec` that end have the same summary (the same tracker:
`total`, `ok`, `errors`, `cancelled` and the map of codes), under whatever
schedules, so in whatever order the outcomes reached the tracker; it is the
summary `serialExec` gives for the same URLs with an uncancelled context, and
the result of tracking the probe results in input order. -/
theorem summary_independent_of_schedule (p : Bool → String → taskStatus)
    (concurrency maxOk : Int) (urls : List String) (acts1 acts2 : List (Action Unit))
    (s1 s2 : ParState)
    (hp : (∀ u, p true u = p false u) ∨
      (maxOk ≤ 0 ∧ Action.cancelParent ∉ acts1 ∧ Action.cancelParent ∉ acts2))
    (hrun1 : run (stubConfig p concurrency maxOk) (initState urls) acts1 = some s1)
    (hfin1 : s1.finished = true)
    (hrun2 : run (stubConfig p concurrency maxOk) (initState urls) acts2 = some s2)
    (hfin2 : s2.finished = true) :
    s1.tracker = s2.tracker ∧
    s1.tracker = (serialExec (fun (w : Unit) u => (p false u, w)) () urls).tracker ∧
    s1.tracker = trackAll newStatusTracker (urls.map (p false)) := by
  have hp1 : (∀ u, p true u = p false u) ∨ (maxOk ≤ 0 ∧ Action.cancelParent ∉ acts1) :=
    hp.imp id (fun hq => ⟨hq.1, hq.2.1⟩)
  have hp2 : (∀ u, p true u = p false u) ∨ (maxOk ≤ 0 ∧ Action.cancelParent ∉ acts2) :=
    hp.imp id (fun hq => ⟨hq.1, hq.2.2⟩)
  have h1 := parallel_stub_tracker p concurrency maxOk urls acts1 s1 hp1 hrun1 hfin1
  have h2 := parallel_stub_tracker p concurrency maxOk urls acts2 s2 hp2 hrun2 hfin2
  exact ⟨h1.trans h2.symm, h1.trans (serialExec_stub (p false) urls).symm, h1⟩

/-- Witness of the amended C9. With a probe that always succeeds, whatever the
context (threshold 1, concurrency 2), the outcomes of two URLs reach the
tracker in the two possible orders and the two summaries are equal. With the
probe of the counterexample and the threshold off (`maxOk = 0`), the two
schedules of the counterexample give equal summaries. -/
theorem summary_independent_of_schedule_witness :
    (stateAfter (stubConfig (fun _ => okStub) 2 1) twoUrls firstThenSecond).tracked.map
      (fun st => st.url) = ["http://a", "http://b"] ∧
    (stateAfter (stubConfig (fun _ => okStub) 2 1) twoUrls secondThenFirst).tracked.map
      (fun st => st.url) = ["http://b", "http://a"] ∧
    (stateAfter (stubConfig (fun _ => okStub) 2 1) twoUrls firstThenSecond).tracker =
      (stateAfter (stubConfig (fun _ => okStub) 2 1) twoUrls secondThenFirst).tracker ∧
    (stateAfter (stubConfig cancelAwareStub 2 0) twoUrls firstThenSecond).tracker =
      (stateAfter (stubConfig cancelAwareStub 2 0) twoUrls firstBeforeSecondReturns).tracker ∧
    (stateAfter (stubConfig cancelAwareStub 2 0) twoUrls firstThenSecond).tracker.ok = 2 :=
  ⟨by decide, by decide,
    (summary_independent_of_schedule (fun _ => okStub) 2 1 twoUrls firstThenSecond
      secondThenFirst
      (stateAfter (stubConfig (fun _ => okStub) 2 1) twoUrls firstThenSecond)
      (stateAfter (stubConfig (fun _ => okStub) 2 1) twoUrls secondThenFirst)
      (Or.inl (fun _ => rfl)) rfl (by decide) rfl (by decide)).1,
    (summary_independent_of_schedule cancelAwareStub 2 0 twoUrls firstThenSecond
      firstBeforeSecondReturns
      (stateAfter (stubConfig cancelAwareStub 2 0) twoUrls firstThenSecond)
      (stateAfter (stubConfig cancelAwareStub 2 0) twoUrls firstBeforeSecondReturns)
      (Or.inr ⟨by decide, by simp [firstThenSecond], by simp [firstBeforeSecondReturns]⟩)
      rfl (by decide) rfl (by decide)).1,
    by decide⟩

/-! ## The timeout option -/

theorem mainSetup_timeout (cl : CommandLine) :
    (mainSetup cl).1 = 5000000000 ∧ (mainSetup cl).2.timeoutSec = cl.timeout.getD 5 := by
  refine ⟨?_, rfl⟩
  show goMul second flagDefaults.timeoutSec = 5000000000
  decide

/-- C10 at a failing input, the command line `-urls urls.txt -timeout 10`:
`flag.Parse()` sets `*timeoutSec` to 10, but the package variable `timeout`,
assigned before it, is 5 seconds and not 10 seconds. -/
theorem timeout_option_ignored :
    (mainSetup timeoutTen).2.timeoutSec = 10 ∧
    (mainSetup timeoutTen).1 = secondsDuration 5 ∧
    (mainSetup timeoutTen).1 ≠ secondsDuration 10 := by
  refine ⟨?_, ?_, ?_⟩ <;> decide

end Main
